import Mathlib

/-!
Verification of the version-diff computation and version-lookup logic of
`src/packages/amplication-git-utils/src/git/github.service.ts`
(the `ResourceVersionService` part: `getPreviousVersion` and
`compareResourceVersions`).

The two diff loops (lines 527-554) push into the local arrays `updated`,
`deleted`, `created` while reading the input arrays
`sourceBlockVersions` / `targetBlockVersions`.  They are embedded as
explicit state passing: `DiffState` carries the input arrays and the three
accumulators, `sourceLoopStep` / `targetLoopStep` are the two loop bodies,
and `runDiff` runs both loops in order.  `diff` builds the returned
`ResourceVersionsDiff` record exactly as lines 556-560 do.

External collaborators (the Prisma store and the semver `sort` function)
are modelled as explicit data: a `Db` value carries the resource-version
rows (in the `createdAt` descending order prisma is asked for), the
`getBlockVersionsByResourceVersions` lookup, and the semver sort.
-/

/-- The nested `block` object of a block version; the loops only read
`block.id` (a string). -/
structure Block where
  id : String
deriving DecidableEq, Repr

/-- A block version as read by the diff: its `block.id` identity, its
`versionNumber`, and the rest of the record, opaque to the computation. -/
structure BlockVersion where
  block : Block
  versionNumber : Int
  payload : String
deriving DecidableEq, Repr

/-- `ResourceVersionsDiffBlock` DTO: one updated pair. -/
structure ResourceVersionsDiffBlock where
  sourceBlockVersion : BlockVersion
  targetBlockVersion : BlockVersion
deriving DecidableEq, Repr

/-- `ResourceVersionsDiff` DTO: the three outputs of the comparison. -/
structure ResourceVersionsDiff where
  updatedBlocks : List ResourceVersionsDiffBlock
  createdBlocks : List BlockVersion
  deletedBlocks : List BlockVersion
deriving DecidableEq, Repr

/-- The mutable state of the two loops: the input arrays (which the loop
bodies read but never write) and the three accumulator arrays. -/
structure DiffState where
  sourceBlockVersions : List BlockVersion
  targetBlockVersions : List BlockVersion
  updated : List ResourceVersionsDiffBlock
  deleted : List BlockVersion
  created : List BlockVersion
deriving DecidableEq, Repr

/-- Body of the first loop (lines 527-544): find the target block version
with the same `block.id`; if found and the version numbers differ, push the
pair onto `updated`; if not found, push the source item onto `deleted`. -/
def sourceLoopStep (st : DiffState) (sourceBlockVersion : BlockVersion) :
    DiffState :=
  match st.targetBlockVersions.find?
      (fun blockVersion => blockVersion.block.id == sourceBlockVersion.block.id) with
  | some targetBlockVersion =>
      if sourceBlockVersion.versionNumber != targetBlockVersion.versionNumber then
        { st with updated := st.updated ++ [⟨sourceBlockVersion, targetBlockVersion⟩] }
      else
        st
  | none => { st with deleted := st.deleted ++ [sourceBlockVersion] }

/-- Body of the second loop (lines 546-554): if no source block version has
the same `block.id`, push the target item onto `created`. -/
def targetLoopStep (st : DiffState) (targetBlockVersion : BlockVersion) :
    DiffState :=
  match st.sourceBlockVersions.find?
      (fun blockVersion => blockVersion.block.id == targetBlockVersion.block.id) with
  | some _ => st
  | none => { st with created := st.created ++ [targetBlockVersion] }

/-- Run both loops, starting from empty accumulators (lines 523-554). -/
def runDiff (sourceBlockVersions targetBlockVersions : List BlockVersion) :
    DiffState :=
  let st0 : DiffState := ⟨sourceBlockVersions, targetBlockVersions, [], [], []⟩
  let st1 := st0.sourceBlockVersions.foldl sourceLoopStep st0
  st1.targetBlockVersions.foldl targetLoopStep st1

/-- The value returned at lines 556-560. -/
def diff (sourceBlockVersions targetBlockVersions : List BlockVersion) :
    ResourceVersionsDiff :=
  let final := runDiff sourceBlockVersions targetBlockVersions
  { updatedBlocks := final.updated
    createdBlocks := final.created
    deletedBlocks := final.deleted }

/-- What one first-loop iteration contributes to `updated`, as a function
of the source item alone. -/
def updF (targetBlockVersions : List BlockVersion) (s : BlockVersion) :
    Option ResourceVersionsDiffBlock :=
  match targetBlockVersions.find? (fun t => t.block.id == s.block.id) with
  | some t => if s.versionNumber != t.versionNumber then some ⟨s, t⟩ else none
  | none => none

/-- Whether one first-loop iteration pushes its source item onto `deleted`. -/
def delP (targetBlockVersions : List BlockVersion) (s : BlockVersion) : Bool :=
  (targetBlockVersions.find? (fun t => t.block.id == s.block.id)).isNone

/-- Whether one second-loop iteration pushes its target item onto `created`. -/
def creP (sourceBlockVersions : List BlockVersion) (t : BlockVersion) : Bool :=
  (sourceBlockVersions.find? (fun s => s.block.id == t.block.id)).isNone

/-- The block-id projection under which the loops look items up. -/
def blockId (b : BlockVersion) : String := b.block.id

/-- A row of the `resourceVersion` table as the service reads it. -/
structure ResourceVersionRec where
  id : String
  resourceId : String
  version : String
deriving DecidableEq, Repr

/-- The service's external collaborators, as explicit data:
`resourceVersions` holds the rows that `findMany` / `findFirst` scan,
already in the `createdAt: desc` order the service asks prisma for;
`blockVersionsOf` models `blockService.getBlockVersionsByResourceVersions`
(block versions connected to a resource-version id); `semverSort` models
the `sort` function imported from the `semver` package. -/
structure Db where
  resourceVersions : List ResourceVersionRec
  blockVersionsOf : String → List BlockVersion
  semverSort : List String → List String

/-- `getPreviousVersion` (lines 445-473): fetch the resource's versions,
semver-sort the version strings, locate the requested version
(`indexOf` yields `-1` when absent, embedded as `findIdx? = none`); return
null when absent or first, else the row carrying the preceding sorted
version string (`sortedVersions[index - 1]`, in bounds, embedded with
`getD`). -/
def getPreviousVersion (db : Db) (resourceId version : String) :
    Option ResourceVersionRec :=
  let versions := db.resourceVersions.filter
    (fun v => v.resourceId == resourceId)
  let sortedVersions := db.semverSort (versions.map (fun v => v.version))
  match sortedVersions.findIdx? (fun v => v == version) with
  | none => none
  | some 0 => none
  | some (index + 1) =>
      versions.find? (fun v => v.version == sortedVersions.getD index "")

/-- `compareResourceVersions` (lines 475-561): resolve the source resource
version (by its version string when provided, else as the previous version
of the target), take its block versions (empty when no source version was
resolved), require the target resource version to exist (else the only
`throw` of the function), and diff the two block-version collections. -/
def compareResourceVersions (db : Db) (resourceId : String)
    (sourceVersion : Option String) (targetVersion : String) :
    Except String ResourceVersionsDiff :=
  let sourceResourceVersion : Option ResourceVersionRec :=
    match sourceVersion with
    | some v =>
        db.resourceVersions.find?
          (fun rv => rv.resourceId == resourceId && rv.version == v)
    | none => getPreviousVersion db resourceId targetVersion
  let sourceBlockVersions :=
    match sourceResourceVersion with
    | some rv => db.blockVersionsOf rv.id
    | none => []
  match db.resourceVersions.find?
      (fun rv => rv.resourceId == resourceId && rv.version == targetVersion) with
  | none =>
      Except.error ("Resource version with version " ++ targetVersion
        ++ " not found for resource " ++ resourceId)
  | some targetResourceVersion =>
      let targetBlockVersions := db.blockVersionsOf targetResourceVersion.id
      Except.ok (diff sourceBlockVersions targetBlockVersions)

/-- A concrete store with one resource version owning one block version. -/
def exampleDb : Db where
  resourceVersions := [⟨"rv1", "res1", "1.0.0"⟩]
  blockVersionsOf := fun rvId => if rvId == "rv1" then [⟨⟨"a"⟩, 1, "x"⟩] else []
  semverSort := fun l => l

lemma foldl_sourceLoopStep (l : List BlockVersion) (st : DiffState) :
    l.foldl sourceLoopStep st =
      { st with
        updated := st.updated ++ l.filterMap (updF st.targetBlockVersions)
        deleted := st.deleted ++ l.filter (delP st.targetBlockVersions) } := by
  induction l generalizing st with
  | nil => simp
  | cons x l ih =>
    rw [List.foldl_cons]
    cases h : st.targetBlockVersions.find?
        (fun blockVersion => blockVersion.block.id == x.block.id) with
    | none =>
      rw [show sourceLoopStep st x = { st with deleted := st.deleted ++ [x] } by
            simp [sourceLoopStep, h]]
      rw [ih]
      simp [updF, delP, h]
    | some t =>
      by_cases hv : (x.versionNumber != t.versionNumber) = true
      · rw [show sourceLoopStep st x
              = { st with updated := st.updated ++ [⟨x, t⟩] } by
              simp [sourceLoopStep, h, hv]]
        rw [ih]
        simp [updF, delP, h, hv]
      · rw [show sourceLoopStep st x = st by simp [sourceLoopStep, h, hv]]
        rw [ih]
        simp only [Bool.not_eq_true] at hv
        simp [updF, delP, h, hv]

lemma foldl_targetLoopStep (l : List BlockVersion) (st : DiffState) :
    l.foldl targetLoopStep st =
      { st with
        created := st.created ++ l.filter (creP st.sourceBlockVersions) } := by
  induction l generalizing st with
  | nil => simp
  | cons x l ih =>
    rw [List.foldl_cons]
    cases h : st.sourceBlockVersions.find?
        (fun blockVersion => blockVersion.block.id == x.block.id) with
    | none =>
      rw [show targetLoopStep st x = { st with created := st.created ++ [x] } by
            simp [targetLoopStep, h]]
      rw [ih]
      simp [creP, h]
    | some s =>
      rw [show targetLoopStep st x = st by simp [targetLoopStep, h]]
      rw [ih]
      simp [creP, h]

lemma diff_eq (src tgt : List BlockVersion) :
    diff src tgt =
      { updatedBlocks := src.filterMap (updF tgt)
        createdBlocks := tgt.filter (creP src)
        deletedBlocks := src.filter (delP tgt) } := by
  simp [diff, runDiff, foldl_sourceLoopStep, foldl_targetLoopStep]

lemma diff_updatedBlocks (src tgt : List BlockVersion) :
    (diff src tgt).updatedBlocks = src.filterMap (updF tgt) := by
  rw [diff_eq]

lemma diff_deletedBlocks (src tgt : List BlockVersion) :
    (diff src tgt).deletedBlocks = src.filter (delP tgt) := by
  rw [diff_eq]

lemma diff_createdBlocks (src tgt : List BlockVersion) :
    (diff src tgt).createdBlocks = tgt.filter (creP src) := by
  rw [diff_eq]

example : diff [⟨⟨"a"⟩, 1, ""⟩, ⟨⟨"b"⟩, 1, ""⟩] [⟨⟨"a"⟩, 2, ""⟩, ⟨⟨"c"⟩, 1, ""⟩]
    = { updatedBlocks := [⟨⟨⟨"a"⟩, 1, ""⟩, ⟨⟨"a"⟩, 2, ""⟩⟩]
        createdBlocks := [⟨⟨"c"⟩, 1, ""⟩]
        deletedBlocks := [⟨⟨"b"⟩, 1, ""⟩] } := by decide

lemma eq_of_nodup_blockId {l : List BlockVersion} {a b : BlockVersion}
    (h : (l.map blockId).Nodup) (ha : a ∈ l) (hb : b ∈ l)
    (hid : blockId a = blockId b) : a = b := by
  induction l with
  | nil => cases ha
  | cons x l ih =>
    rw [List.map_cons, List.nodup_cons] at h
    rcases List.mem_cons.mp ha with rfl | ha₂
    · rcases List.mem_cons.mp hb with rfl | hb₂
      · rfl
      · exact absurd (hid ▸ List.mem_map_of_mem blockId hb₂) h.1
    · rcases List.mem_cons.mp hb with rfl | hb₂
      · exact absurd (hid ▸ List.mem_map_of_mem blockId ha₂) h.1
      · exact ih h.2 ha₂ hb₂

lemma find?_blockId_eq_some {l : List BlockVersion} {t : BlockVersion}
    (h : (l.map blockId).Nodup) (ht : t ∈ l) :
    l.find? (fun x => x.block.id == t.block.id) = some t := by
  induction l with
  | nil => cases ht
  | cons a l ih =>
    rw [List.map_cons, List.nodup_cons] at h
    by_cases ha : (a.block.id == t.block.id) = true
    · have hat : a = t := by
        rcases List.mem_cons.mp ht with rfl | ht₂
        · rfl
        · exact absurd ((beq_iff_eq.mp ha : blockId a = blockId t) ▸
            List.mem_map_of_mem blockId ht₂) h.1
      subst hat
      simp [List.find?_cons, ha]
    · have hta : t ∈ l := by
        rcases List.mem_cons.mp ht with rfl | ht₂
        · exact absurd (beq_iff_eq.mpr rfl) ha
        · exact ht₂
      rw [List.find?_cons]
      simp only [ha]
      exact ih h.2 hta

lemma filterMap_sublist_of_fix {α : Type} (f : α → Option α)
    (h : ∀ x y, f x = some y → y = x) (l : List α) :
    (l.filterMap f).Sublist l := by
  induction l with
  | nil => simp
  | cons x l ih =>
    cases hf : f x with
    | none => rw [List.filterMap_cons, hf]; exact ih.cons x
    | some y => rw [List.filterMap_cons, hf, h x y hf]; exact ih.cons₂ x

lemma updF_eq_some {tgt : List BlockVersion} {x : BlockVersion}
    {p : ResourceVersionsDiffBlock} (h : updF tgt x = some p) :
    p.sourceBlockVersion = x
    ∧ tgt.find? (fun t => t.block.id == x.block.id) = some p.targetBlockVersion
    ∧ (x.versionNumber != p.targetBlockVersion.versionNumber) = true := by
  unfold updF at h
  split at h
  next t hf =>
    split at h
    next hv =>
      injection h with h2
      subst h2
      exact ⟨rfl, hf, hv⟩
    next hv => exact absurd h (by simp)
  next hf => exact absurd h (by simp)

lemma length_filter_filterMap {α β : Type} (f : α → Option β) (q : β → Bool)
    (l : List α) :
    ((l.filterMap f).filter q).length
      = l.countP (fun x => ((f x).map q).getD false) := by
  induction l with
  | nil => rfl
  | cons x l ih =>
    rw [List.filterMap_cons]
    cases hf : f x with
    | none => simp [List.countP_cons, hf, ih]
    | some b =>
      by_cases hq : q b = true
      · simp [List.filter_cons, List.countP_cons, hf, hq, ih]
      · simp [List.filter_cons, List.countP_cons, hf, hq, ih]

lemma countP_eq_zero_of_unique_notmem {α : Type} {p : α → Bool} {s : α}
    {l : List α} (hp : ∀ x ∈ l, p x = true → x = s) (hs : s ∉ l) :
    l.countP p = 0 :=
  List.countP_eq_zero.mpr (fun x hx hpx => hs ((hp x hx hpx) ▸ hx))

lemma countP_eq_of_unique {α : Type} [DecidableEq α] (p : α → Bool) (s : α)
    (l : List α) (hp : ∀ x ∈ l, p x = true → x = s) (hc : l.count s = 1) :
    l.countP p = if p s = true then 1 else 0 := by
  induction l with
  | nil => simp at hc
  | cons a l ih =>
    rw [List.count_cons] at hc
    rw [List.countP_cons]
    by_cases ha : a = s
    · subst ha
      simp only [beq_self_eq_true, if_pos] at hc
      have hc0 : l.count a = 0 := by omega
      have hnm : a ∉ l := List.count_eq_zero.mp hc0
      rw [countP_eq_zero_of_unique_notmem (fun x hx hpx => hp x (List.mem_cons_of_mem a hx) hpx) hnm]
      by_cases hpa : p a = true <;> simp [hpa]
    · have hba : (a == s) = false := beq_eq_false_iff_ne.mpr ha
      rw [hba] at hc
      simp only [if_neg Bool.false_ne_true] at hc
      have hpa : p a ≠ true := fun hpx => ha (hp a (List.mem_cons_self a l) hpx)
      rw [if_neg hpa, Nat.add_zero]
      exact ih (fun x hx hpx => hp x (List.mem_cons_of_mem a hx) hpx) hc

lemma count_filter_of_count_one {α : Type} [DecidableEq α] (p : α → Bool)
    (s : α) (l : List α) (hc : l.count s = 1) :
    (l.filter p).count s = if p s = true then 1 else 0 := by
  by_cases hps : p s = true
  · rw [if_pos hps, List.count_filter hps, hc]
  · rw [if_neg hps, List.count_eq_zero]
    intro hmem
    exact hps (List.of_mem_filter hmem)

lemma diff_nil_source (tgt : List BlockVersion) :
    diff [] tgt = { updatedBlocks := [], createdBlocks := tgt, deletedBlocks := [] } := by
  rw [diff_eq]
  simp [creP]

/-- C4: diffing an empty source against any target collection `Y` yields
`createdBlocks = Y` in target order, with `updatedBlocks` and
`deletedBlocks` empty. -/
theorem diff_empty_source (Y : List BlockVersion) :
    diff [] Y = { updatedBlocks := [], createdBlocks := Y, deletedBlocks := [] } :=
  diff_nil_source Y

/-- C5: diffing any source collection `X` against an empty target yields
`deletedBlocks = X` in source order, with `createdBlocks` and
`updatedBlocks` empty. -/
theorem diff_empty_target (X : List BlockVersion) :
    diff X [] = { updatedBlocks := [], createdBlocks := [], deletedBlocks := X } := by
  rw [diff_eq]
  simp [updF, delP]

/-- C6: the outputs follow the iteration order of the inputs —
`deletedBlocks` and the source halves of `updatedBlocks` are sublists of
the source collection, and `createdBlocks` is a sublist of the target
collection; no resorting by any other key happens. -/
theorem diff_ordering (src tgt : List BlockVersion) :
    (diff src tgt).deletedBlocks.Sublist src
    ∧ ((diff src tgt).updatedBlocks.map
        (fun p => p.sourceBlockVersion)).Sublist src
    ∧ (diff src tgt).createdBlocks.Sublist tgt := by
  refine ⟨?_, ?_, ?_⟩
  · rw [diff_deletedBlocks]
    exact List.filter_sublist src
  · rw [diff_updatedBlocks, List.map_filterMap]
    refine filterMap_sublist_of_fix _ ?_ src
    intro x y hxy
    unfold updF at hxy
    cases h : tgt.find? (fun t => t.block.id == x.block.id) with
    | none => rw [h] at hxy; simp at hxy
    | some t =>
      rw [h] at hxy
      by_cases hv : (x.versionNumber != t.versionNumber) = true
      · simp [hv] at hxy
        exact hxy.symm
      · simp [hv] at hxy
  · rw [diff_createdBlocks]
    exact List.filter_sublist tgt

/-- C3: diffing a collection with unique block ids against itself yields
all three outputs empty. -/
theorem diff_self (X : List BlockVersion) (h : (X.map blockId).Nodup) :
    diff X X = { updatedBlocks := [], createdBlocks := [], deletedBlocks := [] } := by
  rw [diff_eq]
  have hfind : ∀ s ∈ X, X.find? (fun t => t.block.id == s.block.id) = some s :=
    fun s hs => find?_blockId_eq_some h hs
  simp only [ResourceVersionsDiff.mk.injEq]
  refine ⟨?_, ?_, ?_⟩
  · rw [List.filterMap_eq_nil_iff]
    intro s hs
    unfold updF
    rw [hfind s hs]
    simp
  · rw [List.filter_eq_nil_iff]
    intro t ht
    unfold creP
    rw [hfind t ht]
    simp
  · rw [List.filter_eq_nil_iff]
    intro s hs
    unfold delP
    rw [hfind s hs]
    simp

/-- C3 witness: a concrete two-element collection with unique ids diffed
against itself gives three empty outputs. -/
theorem diff_self_witness :
    (([⟨⟨"a"⟩, 1, "p"⟩, ⟨⟨"b"⟩, 2, "q"⟩] : List BlockVersion).map blockId).Nodup
    ∧ diff [⟨⟨"a"⟩, 1, "p"⟩, ⟨⟨"b"⟩, 2, "q"⟩] [⟨⟨"a"⟩, 1, "p"⟩, ⟨⟨"b"⟩, 2, "q"⟩]
        = { updatedBlocks := [], createdBlocks := [], deletedBlocks := [] } :=
  ⟨by decide, diff_self [⟨⟨"a"⟩, 1, "p"⟩, ⟨⟨"b"⟩, 2, "q"⟩] (by decide)⟩

/-- C1: under unique block ids per collection, the diff partitions the
inputs exhaustively and disjointly: each source item lands in exactly one
of `deletedBlocks` or the source half of exactly one `updatedBlocks` pair,
and in neither exactly when an identically-versioned match exists in the
target; symmetrically each target item lands in exactly one of
`createdBlocks` or the target half of exactly one pair. -/
theorem diff_partition (src tgt : List BlockVersion)
    (hs : (src.map blockId).Nodup) (ht : (tgt.map blockId).Nodup) :
    (∀ s ∈ src,
      (diff src tgt).deletedBlocks.count s
        + ((diff src tgt).updatedBlocks.filter
            (fun p => p.sourceBlockVersion == s)).length
        = if ∃ t ∈ tgt, t.block.id = s.block.id ∧ t.versionNumber = s.versionNumber
          then 0 else 1)
    ∧ (∀ t ∈ tgt,
      (diff src tgt).createdBlocks.count t
        + ((diff src tgt).updatedBlocks.filter
            (fun p => p.targetBlockVersion == t)).length
        = if ∃ s ∈ src, s.block.id = t.block.id ∧ s.versionNumber = t.versionNumber
          then 0 else 1) := by
  have hsnd : src.Nodup := List.Nodup.of_map blockId hs
  have htnd : tgt.Nodup := List.Nodup.of_map blockId ht
  constructor
  · intro s hsm
    have hcnt : src.count s = 1 := List.count_eq_one_of_mem hsnd hsm
    rw [diff_deletedBlocks, diff_updatedBlocks, length_filter_filterMap,
        count_filter_of_count_one _ _ _ hcnt]
    have hpsrc : ∀ x ∈ src,
        (((updF tgt x).map (fun p => p.sourceBlockVersion == s)).getD false) = true
          → x = s := by
      intro x hx hq
      cases hu : updF tgt x with
      | none => rw [hu] at hq; simp at hq
      | some p =>
        rw [hu] at hq
        simp only [Option.map_some', Option.getD_some, beq_iff_eq] at hq
        exact (updF_eq_some hu).1.symm.trans hq
    rw [countP_eq_of_unique _ s src hpsrc hcnt]
    cases hf : tgt.find? (fun t => t.block.id == s.block.id) with
    | none =>
      have hdel : delP tgt s = true := by simp [delP, hf]
      have hupd : updF tgt s = none := by simp [updF, hf]
      have hex : ¬ ∃ t ∈ tgt,
          t.block.id = s.block.id ∧ t.versionNumber = s.versionNumber := by
        rw [List.find?_eq_none] at hf
        rintro ⟨t, htm, hid, hver⟩
        exact hf t htm (by simp [hid])
      rw [if_neg hex]
      simp [hdel, hupd]
    | some t =>
      have hdel : delP tgt s = false := by simp [delP, hf]
      have htm : t ∈ tgt := List.mem_of_find?_eq_some hf
      have hid : t.block.id = s.block.id := by simpa using List.find?_some hf
      by_cases hv : (s.versionNumber != t.versionNumber) = true
      · have hupd : updF tgt s = some ⟨s, t⟩ := by simp [updF, hf, hv]
        have hex : ¬ ∃ t' ∈ tgt,
            t'.block.id = s.block.id ∧ t'.versionNumber = s.versionNumber := by
          rintro ⟨t', htm', hid', hver'⟩
          have ht't : t' = t :=
            eq_of_nodup_blockId ht htm' htm (by unfold blockId; rw [hid', hid])
          subst ht't
          exact (bne_iff_ne.mp hv) hver'.symm
        rw [if_neg hex]
        simp [hdel, hupd]
      · have heq : s.versionNumber = t.versionNumber := by
          simpa [bne_iff_ne, not_not] using hv
        have hupd : updF tgt s = none := by simp [updF, hf, hv]
        have hex : ∃ t' ∈ tgt,
            t'.block.id = s.block.id ∧ t'.versionNumber = s.versionNumber :=
          ⟨t, htm, hid, heq.symm⟩
        rw [if_pos hex]
        simp [hdel, hupd]
  · intro t htm
    have hcnt : tgt.count t = 1 := List.count_eq_one_of_mem htnd htm
    rw [diff_createdBlocks, diff_updatedBlocks, length_filter_filterMap,
        count_filter_of_count_one _ _ _ hcnt]
    cases hf : src.find? (fun x => x.block.id == t.block.id) with
    | none =>
      have hcre : creP src t = true := by simp [creP, hf]
      rw [List.find?_eq_none] at hf
      have hupd : src.countP
          (fun x => ((updF tgt x).map (fun p => p.targetBlockVersion == t)).getD false)
            = 0 := by
        rw [List.countP_eq_zero]
        intro x hx hq
        cases hu : updF tgt x with
        | none => rw [hu] at hq; simp at hq
        | some p =>
          rw [hu] at hq
          simp only [Option.map_some', Option.getD_some, beq_iff_eq] at hq
          obtain ⟨hsrc0, hfind, hver⟩ := updF_eq_some hu
          have hidx : p.targetBlockVersion.block.id = x.block.id := by
            simpa using List.find?_some hfind
          rw [hq] at hidx
          exact hf x hx (by simp [hidx])
      have hex : ¬ ∃ s' ∈ src,
          s'.block.id = t.block.id ∧ s'.versionNumber = t.versionNumber := by
        rintro ⟨s', hsm', hid', hver'⟩
        exact hf s' hsm' (by simp [hid'])
      rw [if_neg hex, hupd]
      simp [hcre]
    | some s0 =>
      have hcre : creP src t = false := by simp [creP, hf]
      have hs0m : s0 ∈ src := List.mem_of_find?_eq_some hf
      have hid0 : s0.block.id = t.block.id := by simpa using List.find?_some hf
      have hffix : tgt.find? (fun x => x.block.id == s0.block.id) = some t := by
        rw [show (fun x : BlockVersion => x.block.id == s0.block.id)
              = (fun x : BlockVersion => x.block.id == t.block.id) from
              funext (fun x => by rw [hid0])]
        exact find?_blockId_eq_some ht htm
      have hptgt : ∀ x ∈ src,
          (((updF tgt x).map (fun p => p.targetBlockVersion == t)).getD false) = true
            → x = s0 := by
        intro x hx hq
        cases hu : updF tgt x with
        | none => rw [hu] at hq; simp at hq
        | some p =>
          rw [hu] at hq
          simp only [Option.map_some', Option.getD_some, beq_iff_eq] at hq
          obtain ⟨hsrc0, hfind, hver⟩ := updF_eq_some hu
          have hidx : p.targetBlockVersion.block.id = x.block.id := by
            simpa using List.find?_some hfind
          rw [hq] at hidx
          exact eq_of_nodup_blockId hs hx hs0m
            (by unfold blockId; rw [← hidx, hid0])
      rw [countP_eq_of_unique _ s0 src hptgt (List.count_eq_one_of_mem hsnd hs0m)]
      by_cases hv : (s0.versionNumber != t.versionNumber) = true
      · have hupd : updF tgt s0 = some ⟨s0, t⟩ := by simp [updF, hffix, hv]
        have hex : ¬ ∃ s' ∈ src,
            s'.block.id = t.block.id ∧ s'.versionNumber = t.versionNumber := by
          rintro ⟨s', hsm', hid', hver'⟩
          have hs's0 : s' = s0 :=
            eq_of_nodup_blockId hs hsm' hs0m (by unfold blockId; rw [hid', hid0])
          subst hs's0
          exact (bne_iff_ne.mp hv) hver'
        rw [if_neg hex]
        simp [hcre, hupd]
      · have heq : s0.versionNumber = t.versionNumber := by
          simpa [bne_iff_ne, not_not] using hv
        have hupd : updF tgt s0 = none := by simp [updF, hffix, hv]
        have hex : ∃ s' ∈ src,
            s'.block.id = t.block.id ∧ s'.versionNumber = t.versionNumber :=
          ⟨s0, hs0m, hid0, heq⟩
        rw [if_pos hex]
        simp [hcre, hupd]

/-- C1 witness: the partition equations evaluated on a concrete pair of
collections covering an update, a delete, a create and an unchanged item. -/
theorem diff_partition_witness :
    (([⟨⟨"a"⟩, 1, ""⟩, ⟨⟨"b"⟩, 1, ""⟩, ⟨⟨"d"⟩, 5, ""⟩] : List BlockVersion).map blockId).Nodup
    ∧ (([⟨⟨"a"⟩, 2, ""⟩, ⟨⟨"c"⟩, 1, ""⟩, ⟨⟨"d"⟩, 5, ""⟩] : List BlockVersion).map blockId).Nodup
    ∧ ((∀ s ∈ ([⟨⟨"a"⟩, 1, ""⟩, ⟨⟨"b"⟩, 1, ""⟩, ⟨⟨"d"⟩, 5, ""⟩] : List BlockVersion),
      (diff [⟨⟨"a"⟩, 1, ""⟩, ⟨⟨"b"⟩, 1, ""⟩, ⟨⟨"d"⟩, 5, ""⟩]
          [⟨⟨"a"⟩, 2, ""⟩, ⟨⟨"c"⟩, 1, ""⟩, ⟨⟨"d"⟩, 5, ""⟩]).deletedBlocks.count s
        + ((diff [⟨⟨"a"⟩, 1, ""⟩, ⟨⟨"b"⟩, 1, ""⟩, ⟨⟨"d"⟩, 5, ""⟩]
            [⟨⟨"a"⟩, 2, ""⟩, ⟨⟨"c"⟩, 1, ""⟩, ⟨⟨"d"⟩, 5, ""⟩]).updatedBlocks.filter
            (fun p => p.sourceBlockVersion == s)).length
        = if ∃ t ∈ ([⟨⟨"a"⟩, 2, ""⟩, ⟨⟨"c"⟩, 1, ""⟩, ⟨⟨"d"⟩, 5, ""⟩] : List BlockVersion),
              t.block.id = s.block.id ∧ t.versionNumber = s.versionNumber
          then 0 else 1)
    ∧ (∀ t ∈ ([⟨⟨"a"⟩, 2, ""⟩, ⟨⟨"c"⟩, 1, ""⟩, ⟨⟨"d"⟩, 5, ""⟩] : List BlockVersion),
      (diff [⟨⟨"a"⟩, 1, ""⟩, ⟨⟨"b"⟩, 1, ""⟩, ⟨⟨"d"⟩, 5, ""⟩]
          [⟨⟨"a"⟩, 2, ""⟩, ⟨⟨"c"⟩, 1, ""⟩, ⟨⟨"d"⟩, 5, ""⟩]).createdBlocks.count t
        + ((diff [⟨⟨"a"⟩, 1, ""⟩, ⟨⟨"b"⟩, 1, ""⟩, ⟨⟨"d"⟩, 5, ""⟩]
            [⟨⟨"a"⟩, 2, ""⟩, ⟨⟨"c"⟩, 1, ""⟩, ⟨⟨"d"⟩, 5, ""⟩]).updatedBlocks.filter
            (fun p => p.targetBlockVersion == t)).length
        = if ∃ s ∈ ([⟨⟨"a"⟩, 1, ""⟩, ⟨⟨"b"⟩, 1, ""⟩, ⟨⟨"d"⟩, 5, ""⟩] : List BlockVersion),
              s.block.id = t.block.id ∧ s.versionNumber = t.versionNumber
          then 0 else 1)) :=
  ⟨by decide, by decide,
    diff_partition [⟨⟨"a"⟩, 1, ""⟩, ⟨⟨"b"⟩, 1, ""⟩, ⟨⟨"d"⟩, 5, ""⟩]
      [⟨⟨"a"⟩, 2, ""⟩, ⟨⟨"c"⟩, 1, ""⟩, ⟨⟨"d"⟩, 5, ""⟩] (by decide) (by decide)⟩

/-- C2: for a source item and a target item sharing the same block id
(inputs with unique ids per collection): when the version numbers differ
the pair is added to `updatedBlocks`; when they are equal neither item
appears in any of the three outputs. -/
theorem diff_same_id_pair (src tgt : List BlockVersion)
    (hs : (src.map blockId).Nodup) (ht : (tgt.map blockId).Nodup)
    (s t : BlockVersion) (hsm : s ∈ src) (htm : t ∈ tgt)
    (hid : s.block.id = t.block.id) :
    (s.versionNumber ≠ t.versionNumber →
      (⟨s, t⟩ : ResourceVersionsDiffBlock) ∈ (diff src tgt).updatedBlocks)
    ∧ (s.versionNumber = t.versionNumber →
      s ∉ (diff src tgt).deletedBlocks
      ∧ t ∉ (diff src tgt).createdBlocks
      ∧ ∀ p ∈ (diff src tgt).updatedBlocks,
          p.sourceBlockVersion ≠ s ∧ p.targetBlockVersion ≠ t) := by
  have hffix : tgt.find? (fun x => x.block.id == s.block.id) = some t := by
    rw [show (fun x : BlockVersion => x.block.id == s.block.id)
          = (fun x : BlockVersion => x.block.id == t.block.id) from
          funext (fun x => by rw [hid])]
    exact find?_blockId_eq_some ht htm
  constructor
  · intro hne
    rw [diff_updatedBlocks, List.mem_filterMap]
    exact ⟨s, hsm, by simp [updF, hffix, bne_iff_ne.mpr hne]⟩
  · intro heq
    have hupds : updF tgt s = none := by
      simp [updF, hffix, heq]
    refine ⟨?_, ?_, ?_⟩
    · rw [diff_deletedBlocks]
      intro hmem
      have hdel := List.of_mem_filter hmem
      rw [delP, hffix] at hdel
      simp at hdel
    · rw [diff_createdBlocks]
      intro hmem
      have hcre := List.of_mem_filter hmem
      rw [creP] at hcre
      cases hfs : src.find? (fun x => x.block.id == t.block.id) with
      | none =>
        rw [List.find?_eq_none] at hfs
        exact hfs s hsm (by simp [hid])
      | some s1 => rw [hfs] at hcre; simp at hcre
    · intro p hp
      rw [diff_updatedBlocks, List.mem_filterMap] at hp
      obtain ⟨x, hx, hux⟩ := hp
      obtain ⟨hpsrc, hpfind, hpver⟩ := updF_eq_some hux
      constructor
      · intro hps
        rw [hps] at hpsrc
        subst hpsrc
        rw [hux] at hupds
        cases hupds
      · intro hpt
        have hidx : p.targetBlockVersion.block.id = x.block.id := by
          simpa using List.find?_some hpfind
        rw [hpt] at hidx
        have hxs : x = s :=
          eq_of_nodup_blockId hs hx hsm (by unfold blockId; rw [← hidx, hid])
        subst hxs
        rw [hux] at hupds
        cases hupds

/-- C2 witness: the two conclusions instantiated on concrete collections —
an id held at different versions is reported updated, and an id held at
the same version appears nowhere. -/
theorem diff_same_id_pair_witness :
    ((([⟨⟨"a"⟩, 1, ""⟩, ⟨⟨"d"⟩, 5, ""⟩] : List BlockVersion).map blockId).Nodup
      ∧ (([⟨⟨"a"⟩, 2, ""⟩, ⟨⟨"d"⟩, 5, ""⟩] : List BlockVersion).map blockId).Nodup
      ∧ (⟨⟨"a"⟩, 1, ""⟩ : BlockVersion) ∈ ([⟨⟨"a"⟩, 1, ""⟩, ⟨⟨"d"⟩, 5, ""⟩] : List BlockVersion)
      ∧ (⟨⟨"a"⟩, 2, ""⟩ : BlockVersion) ∈ ([⟨⟨"a"⟩, 2, ""⟩, ⟨⟨"d"⟩, 5, ""⟩] : List BlockVersion)
      ∧ (⟨⟨"a"⟩, 1, ""⟩ : BlockVersion).block.id = (⟨⟨"a"⟩, 2, ""⟩ : BlockVersion).block.id)
    ∧ ((((⟨⟨"a"⟩, 1, ""⟩ : BlockVersion).versionNumber
          ≠ (⟨⟨"a"⟩, 2, ""⟩ : BlockVersion).versionNumber →
      (⟨⟨⟨"a"⟩, 1, ""⟩, ⟨⟨"a"⟩, 2, ""⟩⟩ : ResourceVersionsDiffBlock)
        ∈ (diff [⟨⟨"a"⟩, 1, ""⟩, ⟨⟨"d"⟩, 5, ""⟩] [⟨⟨"a"⟩, 2, ""⟩, ⟨⟨"d"⟩, 5, ""⟩]).updatedBlocks)
    ∧ ((⟨⟨"a"⟩, 1, ""⟩ : BlockVersion).versionNumber
          = (⟨⟨"a"⟩, 2, ""⟩ : BlockVersion).versionNumber →
      (⟨⟨"a"⟩, 1, ""⟩ : BlockVersion)
          ∉ (diff [⟨⟨"a"⟩, 1, ""⟩, ⟨⟨"d"⟩, 5, ""⟩] [⟨⟨"a"⟩, 2, ""⟩, ⟨⟨"d"⟩, 5, ""⟩]).deletedBlocks
      ∧ (⟨⟨"a"⟩, 2, ""⟩ : BlockVersion)
          ∉ (diff [⟨⟨"a"⟩, 1, ""⟩, ⟨⟨"d"⟩, 5, ""⟩] [⟨⟨"a"⟩, 2, ""⟩, ⟨⟨"d"⟩, 5, ""⟩]).createdBlocks
      ∧ ∀ p ∈ (diff [⟨⟨"a"⟩, 1, ""⟩, ⟨⟨"d"⟩, 5, ""⟩] [⟨⟨"a"⟩, 2, ""⟩, ⟨⟨"d"⟩, 5, ""⟩]).updatedBlocks,
          p.sourceBlockVersion ≠ ⟨⟨"a"⟩, 1, ""⟩ ∧ p.targetBlockVersion ≠ ⟨⟨"a"⟩, 2, ""⟩))) :=
  ⟨⟨by decide, by decide, by decide, by decide, by decide⟩,
    diff_same_id_pair [⟨⟨"a"⟩, 1, ""⟩, ⟨⟨"d"⟩, 5, ""⟩] [⟨⟨"a"⟩, 2, ""⟩, ⟨⟨"d"⟩, 5, ""⟩]
      (by decide) (by decide) ⟨⟨"a"⟩, 1, ""⟩ ⟨⟨"a"⟩, 2, ""⟩
      (by decide) (by decide) (by decide)⟩

/-- C9: the diff loops are total — they are defined on arbitrary inputs,
duplicate block ids included, and raise nothing; every updated pair pairs
its source item against the first target occurrence (in iteration order)
whose block id matches, the `find` semantics. -/
theorem diff_duplicate_ids_first_match (src tgt : List BlockVersion) :
    ∀ p ∈ (diff src tgt).updatedBlocks,
      p.sourceBlockVersion ∈ src
      ∧ tgt.find? (fun t => t.block.id == p.sourceBlockVersion.block.id)
          = some p.targetBlockVersion := by
  intro p hp
  rw [diff_updatedBlocks, List.mem_filterMap] at hp
  obtain ⟨x, hx, hux⟩ := hp
  obtain ⟨hpsrc, hpfind, hpver⟩ := updF_eq_some hux
  rw [hpsrc]
  exact ⟨hx, hpfind⟩

/-- C9 witness: with the same block id duplicated on both sides, both
source occurrences pair against the first matching target occurrence and
nothing fails. -/
theorem diff_duplicate_ids_first_match_witness :
    (⟨⟨⟨"a"⟩, 2, ""⟩, ⟨⟨"a"⟩, 3, ""⟩⟩ : ResourceVersionsDiffBlock)
      ∈ (diff [⟨⟨"a"⟩, 1, ""⟩, ⟨⟨"a"⟩, 2, ""⟩]
          [⟨⟨"a"⟩, 3, ""⟩, ⟨⟨"a"⟩, 4, ""⟩]).updatedBlocks
    ∧ ((⟨⟨⟨"a"⟩, 2, ""⟩, ⟨⟨"a"⟩, 3, ""⟩⟩ : ResourceVersionsDiffBlock).sourceBlockVersion
        ∈ ([⟨⟨"a"⟩, 1, ""⟩, ⟨⟨"a"⟩, 2, ""⟩] : List BlockVersion)
      ∧ ([⟨⟨"a"⟩, 3, ""⟩, ⟨⟨"a"⟩, 4, ""⟩] : List BlockVersion).find?
          (fun t => t.block.id
            == (⟨⟨⟨"a"⟩, 2, ""⟩, ⟨⟨"a"⟩, 3, ""⟩⟩ : ResourceVersionsDiffBlock).sourceBlockVersion.block.id)
          = some (⟨⟨⟨"a"⟩, 2, ""⟩, ⟨⟨"a"⟩, 3, ""⟩⟩ : ResourceVersionsDiffBlock).targetBlockVersion) :=
  ⟨by decide,
    diff_duplicate_ids_first_match [⟨⟨"a"⟩, 1, ""⟩, ⟨⟨"a"⟩, 2, ""⟩]
      [⟨⟨"a"⟩, 3, ""⟩, ⟨⟨"a"⟩, 4, ""⟩]
      ⟨⟨⟨"a"⟩, 2, ""⟩, ⟨⟨"a"⟩, 3, ""⟩⟩ (by decide)⟩

/-- C7: the diff computation is deterministic and side-effect free: the
final loop state leaves the input arrays exactly as they were, the result
is a function of the inputs alone, and a second run on equal inputs
returns an identical result. -/
theorem diff_deterministic_and_pure (src tgt : List BlockVersion) :
    (runDiff src tgt).sourceBlockVersions = src
    ∧ (runDiff src tgt).targetBlockVersions = tgt
    ∧ (∀ src' tgt', src' = src → tgt' = tgt → diff src' tgt' = diff src tgt) := by
  refine ⟨?_, ?_, ?_⟩
  · simp [runDiff, foldl_sourceLoopStep, foldl_targetLoopStep]
  · simp [runDiff, foldl_sourceLoopStep, foldl_targetLoopStep]
  · intro src' tgt' hs ht
    rw [hs, ht]

/-- C7 witness: both runs on a concrete pair of inputs coincide and the
inputs survive unchanged. -/
theorem diff_deterministic_and_pure_witness :
    (runDiff [⟨⟨"a"⟩, 1, "p"⟩] [⟨⟨"a"⟩, 2, "p"⟩]).sourceBlockVersions
        = [⟨⟨"a"⟩, 1, "p"⟩]
    ∧ (runDiff [⟨⟨"a"⟩, 1, "p"⟩] [⟨⟨"a"⟩, 2, "p"⟩]).targetBlockVersions
        = [⟨⟨"a"⟩, 2, "p"⟩]
    ∧ (∀ src' tgt', src' = [⟨⟨"a"⟩, 1, "p"⟩] → tgt' = [⟨⟨"a"⟩, 2, "p"⟩] →
        diff src' tgt' = diff [⟨⟨"a"⟩, 1, "p"⟩] [⟨⟨"a"⟩, 2, "p"⟩]) :=
  diff_deterministic_and_pure [⟨⟨"a"⟩, 1, "p"⟩] [⟨⟨"a"⟩, 2, "p"⟩]

lemma getPreviousVersion_def (db : Db) (resourceId version : String) :
    getPreviousVersion db resourceId version =
      match (db.semverSort ((db.resourceVersions.filter
          (fun v => v.resourceId == resourceId)).map (fun v => v.version))).findIdx?
          (fun v => v == version) with
      | none => none
      | some 0 => none
      | some (index + 1) =>
          (db.resourceVersions.filter (fun v => v.resourceId == resourceId)).find?
            (fun v => v.version == (db.semverSort ((db.resourceVersions.filter
              (fun v => v.resourceId == resourceId)).map
                (fun v => v.version))).getD index "") := rfl

/-- C8: `getPreviousVersion` treats "requested version absent from the
resource's sorted version list" and "requested version present but
smallest (first) in semver order" identically: both return null, with no
distinct outcome. -/
theorem getPreviousVersion_conflates_absent_and_first (db : Db)
    (resourceId version : String)
    (h : version ∉ db.semverSort ((db.resourceVersions.filter
          (fun v => v.resourceId == resourceId)).map (fun v => v.version))
      ∨ (db.semverSort ((db.resourceVersions.filter
          (fun v => v.resourceId == resourceId)).map (fun v => v.version))).head?
          = some version) :
    getPreviousVersion db resourceId version = none := by
  rw [getPreviousVersion_def]
  rcases h with h | h
  · rw [List.findIdx?_eq_none_iff.mpr
      (fun x hx => beq_eq_false_iff_ne.mpr (fun he => h (by rw [← he]; exact hx)))]
  · cases hL : db.semverSort ((db.resourceVersions.filter
        (fun v => v.resourceId == resourceId)).map (fun v => v.version)) with
    | nil => rw [hL] at h; cases h
    | cons a l =>
      rw [hL] at h
      rw [List.head?_cons] at h
      injection h with h2
      subst h2
      rw [List.findIdx?_cons]
      simp

/-- C8 witness: in a store holding a single version "1.0.0", the requested
version is present but first in sorted order, and the lookup returns null. -/
theorem getPreviousVersion_conflates_witness :
    (("1.0.0" : String) ∉ exampleDb.semverSort ((exampleDb.resourceVersions.filter
          (fun v => v.resourceId == "res1")).map (fun v => v.version))
      ∨ (exampleDb.semverSort ((exampleDb.resourceVersions.filter
          (fun v => v.resourceId == "res1")).map (fun v => v.version))).head?
          = some "1.0.0")
    ∧ getPreviousVersion exampleDb "res1" "1.0.0" = none :=
  ⟨Or.inr (by decide),
    getPreviousVersion_conflates_absent_and_first exampleDb "res1" "1.0.0"
      (Or.inr (by decide))⟩

lemma compareResourceVersions_def (db : Db) (resourceId : String)
    (sourceVersion : Option String) (targetVersion : String) :
    compareResourceVersions db resourceId sourceVersion targetVersion =
      match db.resourceVersions.find?
          (fun rv => rv.resourceId == resourceId && rv.version == targetVersion) with
      | none =>
          Except.error ("Resource version with version " ++ targetVersion
            ++ " not found for resource " ++ resourceId)
      | some targetResourceVersion =>
          Except.ok (diff
            (match ((match sourceVersion with
              | some v =>
                  db.resourceVersions.find?
                    (fun rv => rv.resourceId == resourceId && rv.version == v)
              | none =>
                  getPreviousVersion db resourceId targetVersion) :
                Option ResourceVersionRec) with
              | some rv => db.blockVersionsOf rv.id
              | none => [])
            (db.blockVersionsOf targetResourceVersion.id)) := rfl

/-- C10: the comparison fails exactly when no resource version carrying the
requested target version exists; an unresolvable source version is not an
error — with no source version given and no previous version found it
proceeds with an empty source collection, so the whole target collection
is reported created. -/
theorem compareResourceVersions_error_iff (db : Db) (resourceId : String)
    (sourceVersion : Option String) (targetVersion : String) :
    ((∃ e, compareResourceVersions db resourceId sourceVersion targetVersion
        = Except.error e)
      ↔ db.resourceVersions.find?
          (fun rv => rv.resourceId == resourceId && rv.version == targetVersion)
          = none)
    ∧ (sourceVersion = none →
      getPreviousVersion db resourceId targetVersion = none →
      ∀ targetResourceVersion,
        db.resourceVersions.find?
            (fun rv => rv.resourceId == resourceId && rv.version == targetVersion)
          = some targetResourceVersion →
        compareResourceVersions db resourceId sourceVersion targetVersion
          = Except.ok
              { updatedBlocks := []
                createdBlocks := db.blockVersionsOf targetResourceVersion.id
                deletedBlocks := [] }) := by
  rw [compareResourceVersions_def]
  cases hf : db.resourceVersions.find?
      (fun rv => rv.resourceId == resourceId && rv.version == targetVersion) with
  | none =>
    constructor
    · exact iff_of_true ⟨_, rfl⟩ rfl
    · intro _ _ rv hrv
      exact absurd hrv (by simp)
  | some rv =>
    constructor
    · refine iff_of_false ?_ (by simp)
      rintro ⟨e, he⟩
      simp at he
    · rintro rfl hprev rv2 hrv2
      injection hrv2 with h2
      subst h2
      simp only [hprev]
      rw [diff_nil_source]

/-- C10 witness: on the concrete store, the target "1.0.0" exists so the
comparison does not fail, no source version is given, no previous version
resolves, and the single target block version is reported created. -/
theorem compareResourceVersions_error_iff_witness :
    ((∃ e, compareResourceVersions exampleDb "res1" none "1.0.0"
        = Except.error e)
      ↔ exampleDb.resourceVersions.find?
          (fun rv => rv.resourceId == "res1" && rv.version == "1.0.0")
          = none)
    ∧ (none : Option String) = none
    ∧ getPreviousVersion exampleDb "res1" "1.0.0" = none
    ∧ exampleDb.resourceVersions.find?
          (fun rv => rv.resourceId == "res1" && rv.version == "1.0.0")
        = some ⟨"rv1", "res1", "1.0.0"⟩
    ∧ compareResourceVersions exampleDb "res1" none "1.0.0"
        = Except.ok
            { updatedBlocks := []
              createdBlocks := exampleDb.blockVersionsOf
                (ResourceVersionRec.mk "rv1" "res1" "1.0.0").id
              deletedBlocks := [] } :=
  ⟨(compareResourceVersions_error_iff exampleDb "res1" none "1.0.0").1,
    rfl, by decide, by decide,
    (compareResourceVersions_error_iff exampleDb "res1" none "1.0.0").2 rfl
      (by decide) ⟨"rv1", "res1", "1.0.0"⟩ (by decide)⟩
